import Mathlib

/-!
Verification of the Luthor lexical-analysis library (src/Lex.h).

The C++ core is a header-only scanner: an ordered table of
(token id, compiled regex) rules, an anchored first-rule-wins match
primitive built on std::regex_search with the flags
match_continuous | match_not_null, a newline-counting location tracker,
and a driving loop (Lexer::analyze) that emits one match or no-match
event per cursor position visited.

The shallow embedding below translates that code into Lean:

* the matching engine (std::regex, an external dependency of the repo)
  is embedded as a small regex AST with ECMAScript-style prioritized
  match semantics: `matchLens` lists the lengths of all anchored matches
  in backtracking priority order (alternation prefers the left branch,
  repetition is greedy and stops at an empty iteration), and
  `regexSearchCont` keeps the first non-empty one, which is exactly the
  behaviour of regex_search under match_continuous | match_not_null;
* `MatchRegex`, `SearchRegex`, `CountLineNums` and the body of
  `Lexer::analyze` are translated line by line; iterators become
  natural-number offsets into the input, and the C++ while-loop, which
  need not terminate, becomes the fuel-indexed `analyzeGo`;
* the caller-supplied sinks become the constructors of `Event`: the
  event list returned by `analyzeGo` records the calls to onMatch and
  onError in order, with the exact arguments the C++ code passes.
-/

namespace Luthor

/-- Location within a source stream (struct Location in src/Lex.h):
1-based line number, 1-based column, 0-based global offset. -/
structure Location where
  line_number : Nat
  within_line : Nat
  global : Nat
deriving DecidableEq

/-- Regular expressions over characters: the fragment of the external
matching engine's pattern language that the library's rules use.
`cls` is a single-character class (literal characters are the singleton
class); `cat`, `alt`, `star` are concatenation, alternation and
Kleene star. -/
inductive Regex where
  | eps : Regex
  | cls : (Char → Bool) → Regex
  | cat : Regex → Regex → Regex
  | alt : Regex → Regex → Regex
  | star : Regex → Regex

/-- A literal single character, as a regex. -/
def rchar (c : Char) : Regex := Regex.cls (fun x => x == c)

/-- One-or-more repetition, desugared as in ECMAScript: r+ = r r*. -/
def rplus (r : Regex) : Regex := Regex.cat r (Regex.star r)

/-- Match lengths contributed by iterating a starred subexpression whose
own match lengths at a suffix are given by f. Lengths are produced in
greedy (more-iterations-first) priority order, and an iteration that
matches the empty string ends the repetition, as in ECMAScript's
RepeatMatcher; the bound n ≤ s.length (true of every real match length)
doubles as the termination measure, with fuel s.length sufficient since
every iteration consumes at least one character. -/
def starLoopF (f : List Char → List Nat) : Nat → List Char → List Nat
  | 0, _ => [0]
  | fuel+1, s =>
    ((f s).filter (fun n => decide (0 < n) && decide (n ≤ s.length))).flatMap
      (fun n => (starLoopF f fuel (s.drop n)).map (fun m => n + m)) ++ [0]

/-- Lengths of all anchored matches of r against a prefix of s, in the
engine's backtracking priority order: the first element is the match the
engine reports first. -/
def matchLens : Regex → List Char → List Nat
  | .eps, _ => [0]
  | .cls _, [] => []
  | .cls p, c :: _ => if p c then [1] else []
  | .cat r1 r2, s =>
      (matchLens r1 s).flatMap
        (fun n1 => (matchLens r2 (s.drop n1)).map (fun n2 => n1 + n2))
  | .alt r1 r2, s => matchLens r1 s ++ matchLens r2 s
  | .star r, s => starLoopF (matchLens r) s.length s

/-- The engine call made by Lexer::MatchRegex (src/Lex.h:185-189):
std::regex_search with match_continuous | match_not_null, i.e. the first
anchored, non-empty match in priority order, returning its length. -/
def regexSearchCont (r : Regex) (s : List Char) : Option Nat :=
  ((matchLens r s).filter (fun n => decide (0 < n))).head?

/-- A rule of the table: struct TokenDef of src/Lex.h, holding the token
id and the pattern compiled at registration time. -/
structure TokenDef (τ : Type) where
  ID : τ
  Expr : Regex

/-- Outcome of a successful pass over the rule table: the position of
the winning rule in m_expressions (the iterator MatchRegex returns), the
rule itself, and the length of its match. -/
structure MatchResult (τ : Type) where
  idx : Nat
  rule : TokenDef τ
  len : Nat

/-- Lexer::MatchRegex (src/Lex.h:175-197): try every rule in table
order and return the first whose regex achieves an anchored non-empty
match, together with that rule's own match length; none plays the role
of the end iterator. -/
def MatchRegex {τ : Type} : List (TokenDef τ) → List Char → Option (MatchResult τ)
  | [], _ => none
  | e :: rest, s =>
    match regexSearchCont e.Expr s with
    | some n => some ⟨0, e, n⟩
    | none => (MatchRegex rest s).map (fun m => ⟨m.idx + 1, m.rule, m.len⟩)

/-- The character range [a, b) of a script, as the C++ iterator pair
(begin + a, begin + b). -/
def segment (s : List Char) (a b : Nat) : List Char := (s.drop a).take (b - a)

/-- Struct TokenMatch of src/Lex.h: the selected rule (none = end
iterator) and the lexeme's half-open offset range. -/
structure TokenMatch (τ : Type) where
  Token : Option (MatchResult τ)
  LexemeStart : Nat
  LexemeEnd : Nat

/-- Lexer::SearchRegex (src/Lex.h:199-221): run MatchRegex on
[start, stop); on success the lexeme ends start + length in, on failure
the lexeme is reset to the empty range at start so the caller can
report an error at that location. -/
def SearchRegex {τ : Type} (tbl : List (TokenDef τ)) (script : List Char)
    (start stop : Nat) : TokenMatch τ :=
  if start ≥ stop then ⟨none, start, stop⟩
  else
    match MatchRegex tbl (segment script start stop) with
    | some m => ⟨some m, start, start + m.len⟩
    | none => ⟨none, start, start⟩

/-- The loop body of Lexer::CountLineNums (src/Lex.h:223-238), indexed
by the k = b - a remaining loop iterations: count newline characters at
offsets [a, a + k) and move the line-begin reference past the last one
seen. -/
def countLineNumsAux (script : List Char) : Nat → Nat → Nat → Nat × Nat
  | 0, _, llb => (0, llb)
  | k+1, a, llb =>
    if script.getD a ' ' = '\n' then
      let r := countLineNumsAux script k (a+1) (a+1)
      (r.1 + 1, r.2)
    else
      countLineNumsAux script k (a+1) llb

/-- Lexer::CountLineNums (src/Lex.h:223-238): returns the newline count
in [a, b) and the updated last-line-begin reference (passed by
reference in the C++ code). -/
def CountLineNums (script : List Char) (a b llb : Nat) : Nat × Nat :=
  countLineNumsAux script (b - a) a llb

/-- The mutable locals of one Lexer::analyze call: the cursor, the
running line number, and the lastLineBegin iterator. -/
structure ScanState where
  cursor : Nat
  line_number : Nat
  lastLineBegin : Nat
deriving DecidableEq

/-- The Location value computed at src/Lex.h:127-128 for the current
iteration: global = cursor - start, within_line = 1 + cursor -
lastLineBegin, line_number as accumulated so far. -/
def curLoc (st : ScanState) : Location :=
  ⟨st.line_number, 1 + st.cursor - st.lastLineBegin, st.cursor⟩

/-- One delivered sink call of Lexer::analyze: onMatch(location, id,
lexemeStart, lexemeEnd) or onError(location). -/
inductive Event (τ : Type) where
  | onMatch : Location → τ → Nat → Nat → Event τ
  | onError : Location → Event τ
deriving DecidableEq

/-- One iteration of the while-loop of Lexer::analyze
(src/Lex.h:122-145), entered with cursor < end: search, emit the event,
count newlines over the consumed lexeme, advance the cursor to the
lexeme end. -/
def analyzeIter {τ : Type} (tbl : List (TokenDef τ)) (script : List Char)
    (st : ScanState) : Event τ × ScanState :=
  let m := SearchRegex tbl script st.cursor script.length
  let loc := curLoc st
  let ev : Event τ :=
    match m.Token with
    | none => Event.onError loc
    | some r => Event.onMatch loc r.rule.ID m.LexemeStart m.LexemeEnd
  let c := CountLineNums script st.cursor m.LexemeEnd st.lastLineBegin
  (ev, ⟨m.LexemeEnd, st.line_number + c.1, c.2⟩)

/-- The while-loop of Lexer::analyze with an explicit iteration budget:
the C++ loop runs while cursor < end, and nothing in the code forces it
to terminate (a no-match leaves the cursor in place), so the embedding
peels at most fuel iterations and also returns the loop state reached.
The event list is the sequence of sink calls of those iterations in
order. -/
def analyzeGo {τ : Type} (tbl : List (TokenDef τ)) (script : List Char) :
    Nat → ScanState → List (Event τ) × ScanState
  | 0, st => ([], st)
  | fuel+1, st =>
    if st.cursor < script.length then
      let r := analyzeIter tbl script st
      let rest := analyzeGo tbl script fuel r.2
      (r.1 :: rest.1, rest.2)
    else ([], st)

/-- The initial loop state of Lexer::analyze (src/Lex.h:113-121):
line 1, column 1, cursor and lastLineBegin at the start of the script. -/
def initState : ScanState := ⟨0, 1, 0⟩

/-- Lexer::analyze (src/Lex.h:108-146) run from the initial state.
A budget of script.length iterations is exact for every run that
completes: each successful match consumes at least one character, so a
run that never reports a no-match reaches the end of the input within
that many iterations, while a run that does report a no-match never
terminates at all (the cursor is not advanced) and the returned list is
the corresponding prefix of the infinite event sequence. -/
def analyze {τ : Type} (tbl : List (TokenDef τ)) (script : List Char) :
    List (Event τ) :=
  (analyzeGo tbl script script.length initState).1

/-- The error raised when a rule's pattern text does not compile
(std::regex_error escaping the TokenDef constructor, src/Lex.h:158-166):
it identifies the offending rule. -/
structure PatternCompileError (τ : Type) where
  offendingID : τ
  patternText : String
deriving DecidableEq

/-- Lexer::define (src/Lex.h:96-99) with the engine's pattern compiler
passed explicitly: the TokenDef constructor compiles the pattern text
before push_back runs, so a compile failure propagates out and the
table is left unchanged, while success appends the compiled rule. -/
def define {τ : Type} (compile : String → Option Regex)
    (m_expressions : List (TokenDef τ)) (id : τ) (definitionRegex : String) :
    Except (PatternCompileError τ) (List (TokenDef τ)) :=
  match compile definitionRegex with
  | some r => Except.ok (m_expressions ++ [⟨id, r⟩])
  | none => Except.error ⟨id, definitionRegex⟩

/-- The location an event was delivered with. -/
def eventLoc {τ : Type} : Event τ → Location
  | .onMatch loc _ _ _ => loc
  | .onError loc => loc

/-- Offset of the first character of the line containing offset n: one
past the last newline among the first n characters, or 0 if there is
none. -/
def lineStart (script : List Char) : Nat → Nat
  | 0 => 0
  | n+1 => if script.getD n ' ' = '\n' then n+1 else lineStart script n

/-- The location the specification prescribes for global offset g:
line 1 plus the newlines before g, column 1 plus the distance from the
start of g's line. -/
def mkLoc (script : List Char) (g : Nat) : Location :=
  ⟨1 + (script.take g).count '\n', 1 + (g - lineStart script g), g⟩

/-- True when the event is a match event (a call to the match sink). -/
def isMatchEv {τ : Type} : Event τ → Bool
  | .onMatch _ _ _ _ => true
  | .onError _ => false

/-- The lexeme spans of the match events, in emission order. -/
def matchSpans {τ : Type} (evs : List (Event τ)) : List (Nat × Nat) :=
  evs.filterMap (fun ev =>
    match ev with
    | .onMatch _ _ ls le => some (ls, le)
    | .onError _ => none)

/-- Spans chain back to back from a to b: each starts where the
previous ended, each is non-empty, the first starts at a and the last
ends at b. -/
def contiguousFrom : Nat → Nat → List (Nat × Nat) → Bool
  | a, b, [] => a == b
  | a, b, (s, e) :: rest => (a == s) && (decide (s < e)) && contiguousFrom e b rest

/-- The input can be cut into back-to-back non-empty substrings, each of
which some registered rule's pattern can match in full. -/
inductive Decomposable {τ : Type} (tbl : List (TokenDef τ)) : List Char → Prop where
  | nil : Decomposable tbl []
  | cons (w rest : List Char) (d : TokenDef τ) :
      w ≠ [] → d ∈ tbl → w.length ∈ matchLens d.Expr w →
      Decomposable tbl rest → Decomposable tbl (w ++ rest)

/-- Token kinds used by the concrete test tables below. -/
inductive Tok where
  | INTEGER
  | NEWLINE
  | A
  | AB
deriving DecidableEq

/-- The character class [0-9]. -/
def digitCls : Regex := Regex.cls (fun c => decide ('0' ≤ c ∧ c ≤ '9'))

/-- The rule table of the location-arithmetic test: INTEGER = [0-9]+
registered before NEWLINE = the newline character. -/
def tbl7 : List (TokenDef Tok) :=
  [⟨Tok.INTEGER, rplus digitCls⟩, ⟨Tok.NEWLINE, rchar '\n'⟩]

/-- A table no rule of which can match the input "$". -/
def tblC2 : List (TokenDef Tok) := [⟨Tok.INTEGER, rplus digitCls⟩]

/-- The precedence-example table: A = "a" registered before AB = "ab". -/
def tblPrec : List (TokenDef Tok) :=
  [⟨Tok.A, rchar 'a'⟩, ⟨Tok.AB, Regex.cat (rchar 'a') (rchar 'b')⟩]

/-- The invariant the loop state of Lexer::analyze maintains:
lastLineBegin marks the start of the cursor's line, the running line
number is one more than the newlines before the cursor, and the cursor
is inside the input. -/
def StInv (script : List Char) (st : ScanState) : Prop :=
  st.lastLineBegin = lineStart script st.cursor ∧
  st.line_number = 1 + (script.take st.cursor).count '\n' ∧
  st.cursor ≤ script.length

/-- A pattern compiler that rejects the malformed pattern text "[" and
accepts everything else, standing in for the engine's compiler in the
registration-failure scenario. -/
def badCompile : String → Option Regex :=
  fun s => if s = "[" then none else some (rchar 'x')

/-- The head of a list, when present, is a member. -/
theorem headOpt_mem {α : Type} {l : List α} {a : α} (h : l.head? = some a) :
    a ∈ l := by
  cases l with
  | nil => simp at h
  | cons b t =>
    simp only [List.head?_cons, Option.some.injEq] at h
    subst h
    exact List.mem_cons_self _ _

/-- The engine never reports an empty match: the match_not_null flag
filters zero-length matches out. -/
theorem regexSearchCont_pos {r : Regex} {s : List Char} {n : Nat}
    (h : regexSearchCont r s = some n) : 0 < n := by
  have hmem := headOpt_mem h
  have := (List.mem_filter.mp hmem).2
  simpa using this

/-- Iterated star matches never exceed the remaining input. -/
theorem mem_starLoopF_le (f : List Char → List Nat) :
    ∀ (fuel : Nat) (s : List Char) (n : Nat),
      n ∈ starLoopF f fuel s → n ≤ s.length := by
  intro fuel
  induction fuel with
  | zero =>
    intro s n h
    simp only [starLoopF, List.mem_singleton] at h
    omega
  | succ k ih =>
    intro s n h
    simp only [starLoopF, List.mem_append, List.mem_flatMap, List.mem_map,
      List.mem_filter, List.mem_singleton] at h
    rcases h with ⟨a, ⟨_, hfil⟩, m, hm, rfl⟩ | rfl
    · simp only [Bool.and_eq_true, decide_eq_true_eq] at hfil
      have hm2 := ih (s.drop a) m hm
      simp only [List.length_drop] at hm2
      omega
    · omega

/-- Every match length listed by the engine is within the input. -/
theorem matchLens_le :
    ∀ (r : Regex) (s : List Char) (n : Nat), n ∈ matchLens r s → n ≤ s.length := by
  intro r
  induction r with
  | eps =>
    intro s n h
    simp only [matchLens, List.mem_singleton] at h
    omega
  | cls p =>
    intro s n h
    cases s with
    | nil => simp [matchLens] at h
    | cons c t =>
      simp only [matchLens] at h
      by_cases hp : p c
      · simp only [hp, if_true, List.mem_singleton] at h
        simp [h]
      · simp [hp] at h
  | cat r1 r2 ih1 ih2 =>
    intro s n h
    simp only [matchLens, List.mem_flatMap, List.mem_map] at h
    obtain ⟨n1, h1, n2, h2, rfl⟩ := h
    have hb1 := ih1 s n1 h1
    have hb2 := ih2 (s.drop n1) n2 h2
    simp only [List.length_drop] at hb2
    omega
  | alt r1 r2 ih1 ih2 =>
    intro s n h
    simp only [matchLens, List.mem_append] at h
    rcases h with h | h
    · exact ih1 s n h
    · exact ih2 s n h
  | star r _ =>
    intro s n h
    exact mem_starLoopF_le (matchLens r) s.length s n h

/-- A reported match fits inside the searched range. -/
theorem regexSearchCont_le {r : Regex} {s : List Char} {n : Nat}
    (h : regexSearchCont r s = some n) : n ≤ s.length :=
  matchLens_le r s n (List.mem_filter.mp (headOpt_mem h)).1

/-- What a successful pass of Lexer::MatchRegex means: the returned
iterator points at a rule of the table, that rule's regex reports the
returned length, and every rule registered earlier fails to match. -/
theorem MatchRegex_sound {τ : Type} :
    ∀ (tbl : List (TokenDef τ)) (s : List Char) (m : MatchResult τ),
      MatchRegex tbl s = some m →
      tbl[m.idx]? = some m.rule ∧ regexSearchCont m.rule.Expr s = some m.len ∧
      ∀ j d, j < m.idx → tbl[j]? = some d → regexSearchCont d.Expr s = none := by
  intro tbl
  induction tbl with
  | nil =>
    intro s m h
    simp [MatchRegex] at h
  | cons e rest ih =>
    intro s m h
    simp only [MatchRegex] at h
    cases hr : regexSearchCont e.Expr s with
    | some n =>
      rw [hr] at h
      simp only [Option.some.injEq] at h
      subst h
      refine ⟨by simp, hr, ?_⟩
      intro j d hj
      simp at hj
    | none =>
      rw [hr] at h
      cases hm : MatchRegex rest s with
      | none => rw [hm] at h; simp at h
      | some m0 =>
        rw [hm] at h
        simp only [Option.map_some', Option.some.injEq] at h
        subst h
        obtain ⟨h1, h2, h3⟩ := ih s m0 hm
        refine ⟨by simpa using h1, h2, ?_⟩
        intro j d hj hg
        simp at hj
        cases j with
        | zero =>
          simp only [List.getElem?_cons_zero, Option.some.injEq] at hg
          subst hg
          exact hr
        | succ j0 =>
          apply h3 j0 d (by omega)
          simpa using hg

/-- If some rule of the table matches, Lexer::MatchRegex succeeds and
its choice is registered no later than that rule. -/
theorem MatchRegex_complete {τ : Type} :
    ∀ (tbl : List (TokenDef τ)) (s : List Char) (i : Nat) (d : TokenDef τ) (n : Nat),
      tbl[i]? = some d → regexSearchCont d.Expr s = some n →
      ∃ m : MatchResult τ, MatchRegex tbl s = some m ∧ m.idx ≤ i := by
  intro tbl
  induction tbl with
  | nil =>
    intro s i d n h _
    simp at h
  | cons e rest ih =>
    intro s i d n hget hr
    simp only [MatchRegex]
    cases he : regexSearchCont e.Expr s with
    | some k => exact ⟨⟨0, e, k⟩, rfl, Nat.zero_le _⟩
    | none =>
      cases i with
      | zero =>
        simp only [List.getElem?_cons_zero, Option.some.injEq] at hget
        subst hget
        rw [he] at hr
        cases hr
      | succ i0 =>
        simp only [List.getElem?_cons_succ] at hget
        obtain ⟨m0, hm0, hle⟩ := ih s i0 d n hget hr
        refine ⟨⟨m0.idx + 1, m0.rule, m0.len⟩, ?_, by simp; omega⟩
        rw [hm0]
        rfl

/-- A selected rule's match is non-empty. -/
theorem MatchRegex_len_pos {τ : Type} {tbl : List (TokenDef τ)} {s : List Char}
    {m : MatchResult τ} (h : MatchRegex tbl s = some m) : 0 < m.len :=
  regexSearchCont_pos (MatchRegex_sound tbl s m h).2.1

/-- A selected rule's match fits in the searched range. -/
theorem MatchRegex_len_le {τ : Type} {tbl : List (TokenDef τ)} {s : List Char}
    {m : MatchResult τ} (h : MatchRegex tbl s = some m) : m.len ≤ s.length :=
  regexSearchCont_le (MatchRegex_sound tbl s m h).2.1

/-- Length of a segment of the script. -/
theorem segment_length (s : List Char) (a b : Nat) :
    (segment s a b).length = min (b - a) (s.length - a) := by
  simp [segment]

/-- Lexer::SearchRegex when no rule matches: the lexeme collapses to
the empty range at the cursor so the error is reported there. -/
theorem SearchRegex_isNone {τ : Type} {tbl : List (TokenDef τ)} {script : List Char}
    {c : Nat} (h : c < script.length)
    (hm : MatchRegex tbl (segment script c script.length) = none) :
    SearchRegex tbl script c script.length = ⟨none, c, c⟩ := by
  unfold SearchRegex
  rw [if_neg (by omega), hm]

/-- Lexer::SearchRegex when a rule matches: the lexeme runs from the
cursor to cursor + match length. -/
theorem SearchRegex_isSome {τ : Type} {tbl : List (TokenDef τ)} {script : List Char}
    {c : Nat} {m : MatchResult τ} (h : c < script.length)
    (hm : MatchRegex tbl (segment script c script.length) = some m) :
    SearchRegex tbl script c script.length = ⟨some m, c, c + m.len⟩ := by
  unfold SearchRegex
  rw [if_neg (by omega), hm]

/-- One loop iteration on a no-match: the error sink is called once
with the current location and the state, including the cursor, is left
exactly as it was. -/
theorem analyzeIter_error {τ : Type} {tbl : List (TokenDef τ)} {script : List Char}
    {st : ScanState} (h : st.cursor < script.length)
    (hm : MatchRegex tbl (segment script st.cursor script.length) = none) :
    analyzeIter tbl script st = (Event.onError (curLoc st), st) := by
  obtain ⟨c, ln, llb⟩ := st
  simp only [analyzeIter, SearchRegex_isNone h hm, CountLineNums, Nat.sub_self,
    countLineNumsAux, Nat.add_zero]

/-- One loop iteration on a match: the match sink is called once with
the current location, the selected rule's id and the lexeme range, and
the cursor advances to the end of the lexeme while the line tracking is
updated over the consumed characters. -/
theorem analyzeIter_match {τ : Type} {tbl : List (TokenDef τ)} {script : List Char}
    {st : ScanState} {m : MatchResult τ} (h : st.cursor < script.length)
    (hm : MatchRegex tbl (segment script st.cursor script.length) = some m) :
    analyzeIter tbl script st =
      (Event.onMatch (curLoc st) m.rule.ID st.cursor (st.cursor + m.len),
       ⟨st.cursor + m.len,
        st.line_number +
          (CountLineNums script st.cursor (st.cursor + m.len) st.lastLineBegin).1,
        (CountLineNums script st.cursor (st.cursor + m.len) st.lastLineBegin).2⟩) := by
  simp only [analyzeIter, SearchRegex_isSome h hm]

/-- The loop with no budget peels no iteration. -/
theorem analyzeGo_zero {τ : Type} (tbl : List (TokenDef τ)) (script : List Char)
    (st : ScanState) : analyzeGo tbl script 0 st = ([], st) := rfl

/-- While cursor < end the loop runs one iteration and continues. -/
theorem analyzeGo_succ_lt {τ : Type} {tbl : List (TokenDef τ)} {script : List Char}
    {fuel : Nat} {st : ScanState} (h : st.cursor < script.length) :
    analyzeGo tbl script (fuel+1) st =
      ((analyzeIter tbl script st).1 ::
         (analyzeGo tbl script fuel (analyzeIter tbl script st).2).1,
       (analyzeGo tbl script fuel (analyzeIter tbl script st).2).2) := by
  simp [analyzeGo, h]

/-- Once the cursor reaches the end the loop exits at once. -/
theorem analyzeGo_succ_done {τ : Type} {tbl : List (TokenDef τ)} {script : List Char}
    {fuel : Nat} {st : ScanState} (h : ¬ st.cursor < script.length) :
    analyzeGo tbl script (fuel+1) st = ([], st) := by
  simp [analyzeGo, h]

/-- The start of a line never lies beyond the position it is computed
for. -/
theorem lineStart_le (script : List Char) : ∀ n : Nat, lineStart script n ≤ n := by
  intro n
  induction n with
  | zero => simp [lineStart]
  | succ k ih =>
    simp only [lineStart]
    split
    · exact Nat.le_refl _
    · exact Nat.le_succ_of_le ih

/-- Reading with a default inside the list is plain indexing. -/
theorem getD_eq_getElem (s : List Char) {a : Nat} (h : a < s.length) :
    s.getD a ' ' = s[a] := by
  simp [List.getD_eq_getElem?_getD, List.getElem?_eq_getElem h]

/-- Peeling the first character off a segment. -/
theorem segment_cons (s : List Char) {a : Nat} (h : a < s.length) (k : Nat) :
    segment s a (a + k + 1) = s.getD a ' ' :: segment s (a + 1) (a + k + 1) := by
  unfold segment
  rw [List.drop_eq_getElem_cons h, getD_eq_getElem s h]
  have h1 : a + k + 1 - a = k + 1 := by omega
  have h2 : a + k + 1 - (a + 1) = k := by omega
  rw [h1, h2, List.take_succ_cons]

/-- The loop of Lexer::CountLineNums, started from the true line-start
reference, returns the newline count of the scanned range and the true
line-start reference of its right end. -/
theorem countLineNumsAux_spec (script : List Char) :
    ∀ (k a : Nat), a + k ≤ script.length →
      countLineNumsAux script k a (lineStart script a) =
        ((segment script a (a + k)).count '\n', lineStart script (a + k)) := by
  intro k
  induction k with
  | zero =>
    intro a _
    simp [countLineNumsAux, segment, Nat.sub_self]
  | succ k0 ih =>
    intro a h
    have ha : a < script.length := by omega
    have hseg := segment_cons script ha k0
    have e1 : a + 1 + k0 = a + k0 + 1 := by omega
    have e2 : a + (k0 + 1) = a + k0 + 1 := by omega
    by_cases hc : script.getD a ' ' = '\n'
    · have hls : lineStart script (a + 1) = a + 1 := by
        simp only [lineStart]
        rw [if_pos hc]
      simp only [countLineNumsAux, if_pos hc]
      have hih := ih (a + 1) (by omega)
      rw [hls, e1] at hih
      rw [hih, e2, hseg, List.count_cons]
      rw [List.getD_eq_getElem?_getD] at hc
      simp [hc]
    · have hls : lineStart script (a + 1) = lineStart script a := by
        simp only [lineStart]
        rw [if_neg hc]
      simp only [countLineNumsAux, if_neg hc]
      have hih := ih (a + 1) (by omega)
      rw [hls, e1] at hih
      rw [hih, e2, hseg, List.count_cons]
      rw [List.getD_eq_getElem?_getD] at hc
      simp [hc]

/-- Lexer::CountLineNums over [a, b), started from the line start of a,
computes the newline count of the consumed lexeme and the line start of
b. -/
theorem CountLineNums_spec (script : List Char) {a b : Nat} (hab : a ≤ b)
    (hb : b ≤ script.length) :
    CountLineNums script a b (lineStart script a) =
      ((segment script a b).count '\n', lineStart script b) := by
  have h := countLineNumsAux_spec script (b - a) a (by omega)
  rw [show a + (b - a) = b from by omega] at h
  rw [CountLineNums]
  exact h

/-- Splitting a prefix of the script at an interior point. -/
theorem take_split (s : List Char) {a b : Nat} (hab : a ≤ b) :
    s.take b = s.take a ++ segment s a b := by
  have h := List.take_add s a (b - a)
  rw [show a + (b - a) = b from by omega] at h
  exact h

/-- Newlines before b are the newlines before a plus those in [a, b). -/
theorem take_count_split (s : List Char) {a b : Nat} (hab : a ≤ b) :
    (s.take b).count '\n' = (s.take a).count '\n' + (segment s a b).count '\n' := by
  rw [take_split s hab, List.count_append]

/-- The initial loop state of Lexer::analyze satisfies the tracking
invariant. -/
theorem StInv_init (script : List Char) : StInv script initState := by
  refine ⟨rfl, ?_, Nat.zero_le _⟩
  simp [initState]

/-- Under the tracking invariant the Location the loop computes is the
location arithmetic the specification prescribes for the cursor. -/
theorem curLoc_eq_mkLoc {script : List Char} {st : ScanState}
    (hinv : StInv script st) : curLoc st = mkLoc script st.cursor := by
  obtain ⟨h1, h2, _⟩ := hinv
  have hle := lineStart_le script st.cursor
  unfold curLoc mkLoc
  rw [h1, h2]
  congr 1
  omega

/-- One iteration preserves the tracking invariant. -/
theorem analyzeIter_inv {τ : Type} {tbl : List (TokenDef τ)} {script : List Char}
    {st : ScanState} (hinv : StInv script st) (h : st.cursor < script.length) :
    StInv script (analyzeIter tbl script st).2 := by
  cases hm : MatchRegex tbl (segment script st.cursor script.length) with
  | none => rw [analyzeIter_error h hm]; exact hinv
  | some m =>
    obtain ⟨h1, h2, h3⟩ := hinv
    have hlen : m.len ≤ script.length - st.cursor := by
      have hb := MatchRegex_len_le hm
      rw [segment_length, Nat.min_self] at hb
      exact hb
    have hcb : st.cursor + m.len ≤ script.length := by omega
    have hcln := CountLineNums_spec script (Nat.le_add_right st.cursor m.len) hcb
    rw [analyzeIter_match h hm, h1, hcln]
    dsimp only
    refine ⟨rfl, ?_, hcb⟩
    dsimp only
    rw [h2, take_count_split script (Nat.le_add_right st.cursor m.len)]
    omega

/-- Every event the loop emits from an invariant-respecting state
carries the specified location arithmetic for its own global offset,
stays inside the input, and, for match events, has its global offset
equal to the lexeme start, i.e. to the cursor at the moment the match
attempt began. -/
theorem analyzeGo_loc_sound {τ : Type} (tbl : List (TokenDef τ)) (script : List Char) :
    ∀ (fuel : Nat) (st : ScanState), StInv script st →
      ∀ ev ∈ (analyzeGo tbl script fuel st).1,
        eventLoc ev = mkLoc script (eventLoc ev).global ∧
        (eventLoc ev).global ≤ script.length ∧
        ∀ loc id ls le, ev = Event.onMatch loc id ls le → loc.global = ls := by
  intro fuel
  induction fuel with
  | zero =>
    intro st _ ev hev
    rw [analyzeGo_zero] at hev
    simp at hev
  | succ k ih =>
    intro st hinv ev hev
    by_cases hc : st.cursor < script.length
    · rw [analyzeGo_succ_lt hc] at hev
      rcases List.mem_cons.mp hev with rfl | hev2
      · have hloc : curLoc st = mkLoc script st.cursor := curLoc_eq_mkLoc hinv
        cases hm : MatchRegex tbl (segment script st.cursor script.length) with
        | none =>
          rw [analyzeIter_error hc hm]
          refine ⟨?_, ?_, ?_⟩
          · show curLoc st = mkLoc script (curLoc st).global
            exact hloc
          · exact Nat.le_of_lt hc
          · intro loc id ls le hcontra
            cases hcontra
        | some m =>
          rw [analyzeIter_match hc hm]
          refine ⟨?_, ?_, ?_⟩
          · show curLoc st = mkLoc script (curLoc st).global
            exact hloc
          · exact Nat.le_of_lt hc
          · intro loc id ls le heq
            injection heq with e1 e2 e3 e4
            subst e1
            subst e3
            rfl
      · exact ih (analyzeIter tbl script st).2 (analyzeIter_inv hinv hc) ev hev2
    · rw [analyzeGo_succ_done hc] at hev
      simp at hev

/-- Every match event the loop ever emits has a non-empty lexeme. -/
theorem analyzeGo_match_pos {τ : Type} (tbl : List (TokenDef τ)) (script : List Char) :
    ∀ (fuel : Nat) (st : ScanState) (loc : Location) (id : τ) (ls le : Nat),
      Event.onMatch loc id ls le ∈ (analyzeGo tbl script fuel st).1 → ls < le := by
  intro fuel
  induction fuel with
  | zero =>
    intro st loc id ls le hev
    rw [analyzeGo_zero] at hev
    simp at hev
  | succ k ih =>
    intro st loc id ls le hev
    by_cases hc : st.cursor < script.length
    · rw [analyzeGo_succ_lt hc] at hev
      rcases List.mem_cons.mp hev with heq | hev2
      · cases hm : MatchRegex tbl (segment script st.cursor script.length) with
        | none =>
          rw [analyzeIter_error hc hm] at heq
          cases heq
        | some m =>
          rw [analyzeIter_match hc hm] at heq
          injection heq with e1 e2 e3 e4
          subst e3
          subst e4
          have := MatchRegex_len_pos hm
          omega
      · exact ih _ loc id ls le hev2
    · rw [analyzeGo_succ_done hc] at hev
      simp at hev

/-- Chained spans run left to right. -/
theorem contiguousFrom_le :
    ∀ (l : List (Nat × Nat)) (a b : Nat), contiguousFrom a b l = true → a ≤ b := by
  intro l
  induction l with
  | nil =>
    intro a b h
    simp only [contiguousFrom, beq_iff_eq] at h
    omega
  | cons p rest ih =>
    intro a b h
    obtain ⟨s, e⟩ := p
    simp only [contiguousFrom, Bool.and_eq_true, beq_iff_eq, decide_eq_true_eq] at h
    obtain ⟨⟨rfl, hse⟩, hrest⟩ := h
    have := ih e b hrest
    omega

/-- Two adjacent segments of the script concatenate to one. -/
theorem segment_append (s : List Char) {a e b : Nat} (h1 : a ≤ e) (h2 : e ≤ b) :
    segment s a e ++ segment s e b = segment s a b := by
  unfold segment
  have hsplit : b - a = (e - a) + (b - e) := by omega
  rw [hsplit, List.take_add, List.drop_drop]
  rw [show a + (e - a) = e from by omega]

/-- Concatenating the segments of a back-to-back span chain from a to b
rebuilds the segment from a to b. -/
theorem contiguous_flatten (script : List Char) :
    ∀ (l : List (Nat × Nat)) (a b : Nat), contiguousFrom a b l = true →
      (l.map (fun p => segment script p.1 p.2)).flatten = segment script a b := by
  intro l
  induction l with
  | nil =>
    intro a b h
    simp only [contiguousFrom, beq_iff_eq] at h
    subst h
    simp [segment, Nat.sub_self]
  | cons p rest ih =>
    intro a b h
    obtain ⟨s0, e0⟩ := p
    simp only [contiguousFrom, Bool.and_eq_true, beq_iff_eq, decide_eq_true_eq] at h
    obtain ⟨⟨rfl, hse⟩, hrest⟩ := h
    have hb := contiguousFrom_le rest e0 b hrest
    simp only [List.map_cons, List.flatten_cons]
    rw [ih e0 b hrest]
    exact segment_append script (Nat.le_of_lt hse) hb

/-- If a run of the loop from an in-range cursor with enough budget to
finish reports no no-match event, its lexeme spans chain back to back
from the starting cursor to the end of the input. -/
theorem analyzeGo_spans {τ : Type} (tbl : List (TokenDef τ)) (script : List Char) :
    ∀ (fuel : Nat) (st : ScanState),
      st.cursor ≤ script.length → script.length ≤ st.cursor + fuel →
      (analyzeGo tbl script fuel st).1.all isMatchEv = true →
      contiguousFrom st.cursor script.length
        (matchSpans (analyzeGo tbl script fuel st).1) = true := by
  intro fuel
  induction fuel with
  | zero =>
    intro st h1 h2 _
    rw [analyzeGo_zero]
    simp only [matchSpans, List.filterMap_nil, contiguousFrom, beq_iff_eq]
    omega
  | succ k ih =>
    intro st h1 h2 hall
    by_cases hc : st.cursor < script.length
    · rw [analyzeGo_succ_lt hc] at hall ⊢
      cases hm : MatchRegex tbl (segment script st.cursor script.length) with
      | none =>
        rw [analyzeIter_error hc hm] at hall
        simp [isMatchEv] at hall
      | some m =>
        have hpos := MatchRegex_len_pos hm
        have hlen : m.len ≤ script.length - st.cursor := by
          have hb := MatchRegex_len_le hm
          rw [segment_length, Nat.min_self] at hb
          exact hb
        rw [analyzeIter_match hc hm] at hall ⊢
        simp only [List.all_cons, Bool.and_eq_true] at hall
        simp only [matchSpans, List.filterMap_cons]
        simp only [contiguousFrom]
        rw [Bool.and_eq_true, Bool.and_eq_true]
        refine ⟨⟨?_, ?_⟩, ?_⟩
        · simp
        · simp only [decide_eq_true_eq]
          omega
        have hrec := ih ⟨st.cursor + m.len,
            st.line_number +
              (CountLineNums script st.cursor (st.cursor + m.len) st.lastLineBegin).1,
            (CountLineNums script st.cursor (st.cursor + m.len) st.lastLineBegin).2⟩
          (by dsimp only; omega) (by dsimp only; omega) hall.2
        exact hrec
    · rw [analyzeGo_succ_done hc]
      simp only [matchSpans, List.filterMap_nil, contiguousFrom, beq_iff_eq]
      omega

/-- Claim C1: for every rule table and position, whenever two rules R1
and R2 can both achieve a non-empty anchored match there and R1 is
registered before R2, the scanner never selects R2 or anything after
R1: it selects the first matching rule with that rule's own match
length, irrespective of the two match lengths, so R1 itself is selected
whenever no still-earlier rule matches. -/
theorem c1_precedence_over_length {τ : Type} (tbl : List (TokenDef τ)) (s : List Char)
    (i1 i2 : Nat) (d1 d2 : TokenDef τ) (n1 n2 : Nat)
    (hlt : i1 < i2) (hg1 : tbl[i1]? = some d1) (hg2 : tbl[i2]? = some d2)
    (hr1 : regexSearchCont d1.Expr s = some n1)
    (hr2 : regexSearchCont d2.Expr s = some n2) :
    ∃ m : MatchResult τ, MatchRegex tbl s = some m ∧ m.idx ≤ i1 ∧ m.idx ≠ i2 ∧
      tbl[m.idx]? = some m.rule ∧ regexSearchCont m.rule.Expr s = some m.len ∧
      ((∀ j d, j < i1 → tbl[j]? = some d → regexSearchCont d.Expr s = none) →
        m.idx = i1 ∧ m.rule = d1 ∧ m.len = n1) := by
  obtain ⟨m, hm, hle⟩ := MatchRegex_complete tbl s i1 d1 n1 hg1 hr1
  obtain ⟨hs1, hs2, hs3⟩ := MatchRegex_sound tbl s m hm
  refine ⟨m, hm, hle, by omega, hs1, hs2, ?_⟩
  intro hnone
  rcases Nat.lt_or_ge m.idx i1 with hlt2 | hge
  · have hcontra := hnone m.idx m.rule hlt2 hs1
    rw [hcontra] at hs2
    cases hs2
  · have heq : m.idx = i1 := by omega
    rw [heq] at hs1
    rw [hs1] at hg1
    injection hg1 with hrule
    rw [hrule] at hs2
    rw [hs2] at hr1
    injection hr1 with hlen
    exact ⟨heq, hrule, hlen⟩

/-- Witness for C1 at the specification's own precedence example:
table A = "a" before AB = "ab" on input "ab"; both rules match (with
lengths 1 and 2, the later match strictly longer) and the selection is
rule A with length 1. -/
theorem c1_precedence_over_length_witness :
    ((0 : Nat) < 1 ∧ regexSearchCont (rchar 'a') ("ab".data) = some 1 ∧
      regexSearchCont (Regex.cat (rchar 'a') (rchar 'b')) ("ab".data) = some 2) ∧
    (∃ m : MatchResult Tok, MatchRegex tblPrec ("ab".data) = some m ∧
      m.idx ≤ 0 ∧ m.idx ≠ 1 ∧
      tblPrec[m.idx]? = some m.rule ∧
      regexSearchCont m.rule.Expr ("ab".data) = some m.len ∧
      ((∀ j d, j < 0 → tblPrec[j]? = some d →
          regexSearchCont d.Expr ("ab".data) = none) →
        m.idx = 0 ∧ m.rule = ⟨Tok.A, rchar 'a'⟩ ∧ m.len = 1)) :=
  ⟨⟨by decide, rfl, rfl⟩,
   c1_precedence_over_length tblPrec ("ab".data) 0 1 ⟨Tok.A, rchar 'a'⟩
     ⟨Tok.AB, Regex.cat (rchar 'a') (rchar 'b')⟩ 1 2 (by decide) rfl rfl rfl rfl⟩

/-- Claim C2 counterexample: on input "$" with a table no rule of which
matches, the first two loop iterations already deliver two no-match
events at (line 1, col 1), not exactly one, and afterwards the cursor
still sits at 0 with input remaining, so the loop has not terminated. -/
theorem c2_stuck_counterexample :
    (analyzeGo tblC2 ("$".data) 2 initState).1 =
      [Event.onError ⟨1, 1, 0⟩, Event.onError ⟨1, 1, 0⟩] ∧
    ((analyzeGo tblC2 ("$".data) 2 initState).2).cursor = 0 ∧
    0 < ("$".data).length := by
  refine ⟨by decide, by decide, by decide⟩

/-- Claim C2 amended: when no rule matches at the cursor, every
iteration of analyze emits one no-match event at the current location
and leaves the loop state, cursor included, unchanged; with an error
sink that returns normally the loop therefore repeats that event
forever and never terminates — a single event and termination arise
only if the sink aborts the scan. -/
theorem c2_no_match_loops {τ : Type} (tbl : List (TokenDef τ)) (script : List Char)
    (st : ScanState) (fuel : Nat) (h : st.cursor < script.length)
    (hm : MatchRegex tbl (segment script st.cursor script.length) = none) :
    analyzeGo tbl script fuel st =
      (List.replicate fuel (Event.onError (curLoc st)), st) := by
  induction fuel with
  | zero => rw [analyzeGo_zero, List.replicate_zero]
  | succ k ih =>
    rw [analyzeGo_succ_lt h, analyzeIter_error h hm, ih, List.replicate_succ]

/-- Witness for the amended C2 on input "$": three iterations produce
three identical no-match events at (1,1) and the state is unchanged. -/
theorem c2_no_match_loops_witness :
    (initState.cursor < ("$".data).length ∧
      MatchRegex tblC2 (segment ("$".data) initState.cursor ("$".data).length) = none) ∧
    analyzeGo tblC2 ("$".data) 3 initState =
      (List.replicate 3 (Event.onError (curLoc initState)), initState) :=
  ⟨⟨by decide, rfl⟩, c2_no_match_loops tblC2 ("$".data) initState 3 (by decide) rfl⟩

/-- Claim C3 counterexample: the input "ab" decomposes into a single
substring matched in full by the registered rule AB = "ab", yet analyze
over the table [A = "a", AB = "ab"] emits a no-match event at (1,2) and
the concatenated lexeme spans rebuild only "a", not the input. -/
theorem c3_partition_counterexample :
    Decomposable tblPrec ("ab".data) ∧
    Event.onError ⟨1, 2, 1⟩ ∈ analyze tblPrec ("ab".data) ∧
    ((matchSpans (analyze tblPrec ("ab".data))).map
        (fun p => segment ("ab".data) p.1 p.2)).flatten ≠ "ab".data := by
  refine ⟨?_, by decide, by decide⟩
  have hd : Decomposable tblPrec (("ab".data) ++ []) := by
    refine Decomposable.cons _ _ ⟨Tok.AB, Regex.cat (rchar 'a') (rchar 'b')⟩
      (by decide) ?_ (by decide) Decomposable.nil
    exact List.Mem.tail _ (List.Mem.head _)
  simpa using hd

/-- Claim C3 amended: whenever a run of analyze emits no no-match
event, the lexeme spans of its match events chain back to back from
offset 0 to the end of the input, and their concatenation rebuilds the
input exactly, with no gaps and no overlaps; decomposability of the
input alone does not guarantee this, as the counterexample shows. -/
theorem c3_partition_amended {τ : Type} (tbl : List (TokenDef τ)) (script : List Char)
    (hall : (analyze tbl script).all isMatchEv = true) :
    contiguousFrom 0 script.length (matchSpans (analyze tbl script)) = true ∧
    ((matchSpans (analyze tbl script)).map
        (fun p => segment script p.1 p.2)).flatten = script := by
  unfold analyze at hall ⊢
  have h1 := analyzeGo_spans tbl script script.length initState (Nat.zero_le _)
    (by simp [initState]) hall
  refine ⟨h1, ?_⟩
  rw [contiguous_flatten script _ _ _ h1]
  show segment script initState.cursor script.length = script
  simp [segment, initState]

/-- Witness for the amended C3: the error-free run of the
INTEGER/NEWLINE table on "12\n34" has chained spans that rebuild the
input. -/
theorem c3_partition_amended_witness :
    (analyze tbl7 ("12\n34".data)).all isMatchEv = true ∧
    (contiguousFrom 0 ("12\n34".data).length
        (matchSpans (analyze tbl7 ("12\n34".data))) = true ∧
      ((matchSpans (analyze tbl7 ("12\n34".data))).map
          (fun p => segment ("12\n34".data) p.1 p.2)).flatten = "12\n34".data) :=
  ⟨by decide, c3_partition_amended tbl7 ("12\n34".data) (by decide)⟩

/-- Claim C4: the engine call never reports an empty match, even for a
pattern that can match zero characters at the position (the match
filter discards the empty alternative); consequently every match event
analyze ever emits has a non-empty lexeme, and when a rule is selected
the lexeme starts at the cursor and ends strictly beyond it, so the
cursor strictly advances after every match event. -/
theorem c4_no_empty_match :
    (∀ (r : Regex) (s : List Char) (n : Nat), regexSearchCont r s = some n → 0 < n) ∧
    (∀ (τ : Type) (tbl : List (TokenDef τ)) (script : List Char) (fuel : Nat)
        (st : ScanState) (loc : Location) (id : τ) (ls le : Nat),
      Event.onMatch loc id ls le ∈ (analyzeGo tbl script fuel st).1 → ls < le) ∧
    (∀ (τ : Type) (tbl : List (TokenDef τ)) (script : List Char) (c : Nat)
        (m : MatchResult τ), c < script.length →
      (SearchRegex tbl script c script.length).Token = some m →
      (SearchRegex tbl script c script.length).LexemeStart = c ∧
        c < (SearchRegex tbl script c script.length).LexemeEnd) := by
  refine ⟨fun r s n h => regexSearchCont_pos h,
    fun τ tbl script fuel st loc id ls le h =>
      analyzeGo_match_pos tbl script fuel st loc id ls le h, ?_⟩
  intro τ tbl script c m hc htok
  cases hm : MatchRegex tbl (segment script c script.length) with
  | none =>
    rw [SearchRegex_isNone hc hm] at htok
    cases htok
  | some m0 =>
    have hpos := MatchRegex_len_pos hm
    rw [SearchRegex_isSome hc hm]
    refine ⟨rfl, ?_⟩
    dsimp only
    omega

/-- Witness for C4: the Kleene-star pattern of the digit class can match
zero characters at the start of "12\n34", yet the match event INTEGER
"12" emitted there has the non-empty span from 0 to 2. -/
theorem c4_no_empty_match_witness :
    ((0 : Nat) ∈ matchLens (Regex.star digitCls) ("12\n34".data) ∧
      Event.onMatch ⟨1, 1, 0⟩ Tok.INTEGER 0 2 ∈
        (analyzeGo tbl7 ("12\n34".data) 5 initState).1) ∧
    (0 : Nat) < 2 :=
  ⟨⟨by decide, by decide⟩,
   c4_no_empty_match.2.1 Tok tbl7 ("12\n34".data) 5 initState ⟨1, 1, 0⟩
     Tok.INTEGER 0 2 (by decide)⟩

/-- Claim C5: when no rule achieves a non-empty match at the cursor,
the iteration calls the error sink exactly once, with the current
location, emits no substitute match event, and hands the loop exactly
the state it started from — the cursor is not advanced, no rule is
retried beyond the one ordered pass, and no consumed input is
revisited. -/
theorem c5_no_match_single_error {τ : Type} (tbl : List (TokenDef τ))
    (script : List Char) (fuel : Nat) (st : ScanState)
    (h : st.cursor < script.length)
    (hm : MatchRegex tbl (segment script st.cursor script.length) = none) :
    analyzeGo tbl script (fuel + 1) st =
      (Event.onError (curLoc st) :: (analyzeGo tbl script fuel st).1,
       (analyzeGo tbl script fuel st).2) := by
  rw [analyzeGo_succ_lt h, analyzeIter_error h hm]

/-- Witness for C5 on input "$": the first iteration emits the single
no-match event at (1,1) and continues from the unchanged initial
state. -/
theorem c5_no_match_single_error_witness :
    (initState.cursor < ("$".data).length) ∧
    analyzeGo tblC2 ("$".data) 1 initState =
      (Event.onError (curLoc initState) :: (analyzeGo tblC2 ("$".data) 0 initState).1,
       (analyzeGo tblC2 ("$".data) 0 initState).2) :=
  ⟨by decide, c5_no_match_single_error tblC2 ("$".data) 0 initState (by decide) rfl⟩

/-- Claim C6: every event analyze emits carries a location whose global
field is the cursor offset at which the match attempt began (for match
events it equals the lexeme start), whose line number is one more than
the newline count of the input before that offset — so it grows by
exactly the newlines consumed between updates — and whose column is one
more than the distance from the character following the most recently
consumed newline (the start of input if none). -/
theorem c6_location_invariants {τ : Type} (tbl : List (TokenDef τ))
    (script : List Char) :
    ∀ ev ∈ analyze tbl script,
      eventLoc ev = mkLoc script (eventLoc ev).global ∧
      (eventLoc ev).global ≤ script.length ∧
      ∀ loc id ls le, ev = Event.onMatch loc id ls le → loc.global = ls :=
  fun ev hev =>
    analyzeGo_loc_sound tbl script script.length initState (StInv_init script) ev hev

/-- Witness for C6 at the third event of the "12\n34" scan: INTEGER
"34" is emitted at global offset 3 and its location (2,1,3) is exactly
the prescribed location arithmetic for offset 3. -/
theorem c6_location_invariants_witness :
    (Event.onMatch ⟨2, 1, 3⟩ Tok.INTEGER 3 5 ∈ analyze tbl7 ("12\n34".data)) ∧
    eventLoc (Event.onMatch (⟨2, 1, 3⟩ : Location) Tok.INTEGER 3 5) =
      mkLoc ("12\n34".data)
        (eventLoc (Event.onMatch (⟨2, 1, 3⟩ : Location) Tok.INTEGER 3 5)).global :=
  ⟨by decide,
   (c6_location_invariants tbl7 ("12\n34".data)
     (Event.onMatch ⟨2, 1, 3⟩ Tok.INTEGER 3 5) (by decide)).1⟩

/-- Claim C7: scanning "12\n34" with INTEGER = [0-9]+ registered before
NEWLINE = the newline character emits exactly the three match events
INTEGER "12" at (1,1), NEWLINE at (1,3), INTEGER "34" at (2,1), and no
no-match event. -/
theorem c7_location_example :
    analyze tbl7 ("12\n34".data) =
      [Event.onMatch ⟨1, 1, 0⟩ Tok.INTEGER 0 2,
       Event.onMatch ⟨1, 3, 2⟩ Tok.NEWLINE 2 3,
       Event.onMatch ⟨2, 1, 3⟩ Tok.INTEGER 3 5] := by
  decide

/-- Claim C8: registration compiles the pattern before the table is
touched, so an invalid pattern makes define fail with a compile error
naming the offending rule and no entry is appended, while a successful
define appends exactly the compiled rule; scanning an already-built
table can only produce match and no-match events, never a compile
error. -/
theorem c8_pattern_compile {τ : Type} (compile : String → Option Regex)
    (tbl : List (TokenDef τ)) (id : τ) (pat : String) :
    (compile pat = none → define compile tbl id pat = Except.error ⟨id, pat⟩) ∧
    (∀ tbl2, define compile tbl id pat = Except.ok tbl2 →
      ∃ r, compile pat = some r ∧ tbl2 = tbl ++ [⟨id, r⟩]) ∧
    (∀ (script : List Char) (ev : Event τ), ev ∈ analyze tbl script →
      (∃ loc id2 ls le, ev = Event.onMatch loc id2 ls le) ∨
        ∃ loc, ev = Event.onError loc) := by
  refine ⟨?_, ?_, ?_⟩
  · intro h
    unfold define
    rw [h]
  · intro tbl2 h
    unfold define at h
    cases hc : compile pat with
    | none =>
      rw [hc] at h
      cases h
    | some r =>
      rw [hc] at h
      injection h with h2
      exact ⟨r, rfl, h2.symm⟩
  · intro script ev _
    cases ev with
    | onMatch loc id2 ls le => exact Or.inl ⟨loc, id2, ls, le, rfl⟩
    | onError loc => exact Or.inr ⟨loc, rfl⟩

/-- Witness for C8: a compiler that rejects the malformed pattern "["
makes define fail with the compile error naming the rule, leaving no
table to scan with. -/
theorem c8_pattern_compile_witness :
    badCompile "[" = none ∧
    define badCompile ([] : List (TokenDef Tok)) Tok.A "[" =
      Except.error ⟨Tok.A, "["⟩ :=
  ⟨rfl, (c8_pattern_compile badCompile ([] : List (TokenDef Tok)) Tok.A "[").1 rfl⟩

/-- Claim C9: on empty input the loop guard fails immediately: for any
table, any budget and any state, no iteration runs, no sink is ever
called and analyze returns at once with zero events. -/
theorem c9_empty_input {τ : Type} (tbl : List (TokenDef τ)) :
    (∀ (fuel : Nat) (st : ScanState),
      analyzeGo tbl ([] : List Char) fuel st = ([], st)) ∧
    analyze tbl ([] : List Char) = ([] : List (Event τ)) := by
  constructor
  · intro fuel st
    cases fuel with
    | zero => rfl
    | succ k => exact analyzeGo_succ_done (by simp)
  · rfl

/-- Claim C10: analyze is a pure function of the rule table and the
input — two invocations with equal tables and equal inputs deliver
identical event sequences (same order, locations, token kinds and
lexeme spans); in the embedding the table is a value the scan only
reads (all scanning members of the C++ class are const), so it is
unchanged by the call. -/
theorem c10_determinism {τ : Type} (tbl1 tbl2 : List (TokenDef τ))
    (s1 s2 : List Char) (ht : tbl1 = tbl2) (hs : s1 = s2) :
    analyze tbl1 s1 = analyze tbl2 s2 := by
  rw [ht, hs]

/-- Witness for C10: two scans of "12\n34" with the INTEGER/NEWLINE
table agree. -/
theorem c10_determinism_witness :
    analyze tbl7 ("12\n34".data) = analyze tbl7 ("12\n34".data) :=
  c10_determinism tbl7 tbl7 ("12\n34".data) ("12\n34".data) rfl rfl

end Luthor
